import Mathlib

/-!
Verification development for the Bulldog kernel's syscall-mediated I/O layer.

The definitions below are a shallow embedding of the Rust sources under
`kernel/src/syscall/` and `kernel/src/vfs/`.  Machine integers (`u64`,
`usize`) are modelled as `Nat`; the syscall argument domain is the set of
naturals below `2 ^ 64` and overflow checks are written out explicitly.
Raw user memory is modelled as a byte oracle `Nat → Nat`; the external heap
allocator (an out-of-scope collaborator) is an oracle `Nat → Nat` returning
the pointer produced for a requested size (`0` = null).  A Rust `panic!`
(reachable through `current_process_fd_table` on an uninitialized table) is
modelled by an `Option` result: `none` means the handler panicked.
-/

namespace Bulldog

/-- Largest value representable in a `u64`. -/
def U64_MAX : Nat := 2 ^ 64 - 1

/-- Encoding of an errno as a negative return value, from `errno.rs`:
`(-(errno as i64)) as u64`, i.e. the two's-complement negation in 64 bits. -/
def err (e : Nat) : Nat := (2 ^ 64 - e) % 2 ^ 64

/-- The kernel error codes used by the I/O layer (`errno.rs` module `errno`). -/
inductive Errno where
  | EPERM | ENOENT | EBADF | EAGAIN | ENOMEM | EACCES | EFAULT
  | EEXIST | ENOTDIR | EISDIR | EINVAL | EMFILE | ENOSYS
  deriving DecidableEq, Repr

/-- Numeric value of each errno constant, from `errno.rs`. -/
def Errno.code : Errno → Nat
  | .EPERM => 1
  | .ENOENT => 2
  | .EBADF => 9
  | .EAGAIN => 11
  | .ENOMEM => 12
  | .EACCES => 13
  | .EFAULT => 14
  | .EEXIST => 17
  | .ENOTDIR => 20
  | .EISDIR => 21
  | .EINVAL => 22
  | .EMFILE => 24
  | .ENOSYS => 38

/-- Encode an `Errno` as a raw `u64` return value. -/
def errE (e : Errno) : Nat := err e.code

/-- Reinterpret a `u64` value as an `i64` (two's complement). -/
def u64_as_i64 (p : Nat) : Int :=
  if p < 2 ^ 63 then (p : Int) else (p : Int) - 2 ^ 64

/-- Reinterpret an `i64` value as a `u64` (two's complement). -/
def i64_as_u64 (i : Int) : Nat := (i % 2 ^ 64).toNat

/-- `is_user_ptr` from `stubs.rs`: reject null, non-canonical addresses, and
addresses above the user/kernel split `0x7FFFFFFFFFFF`.
The canonicality test in the source is `((ptr as i64) as u64) == ptr`. -/
def is_user_ptr (p : Nat) : Bool :=
  if p = 0 then false
  else if i64_as_u64 (u64_as_i64 p) = p ∧ p ≤ 0x7FFFFFFFFFFF then true
  else false

/-! ## In-memory file backend (`vfs/memfile.rs`) -/

/-- `MemFile`: a growable byte store with an internal offset. -/
structure MemFile where
  data : List Nat
  offset : Nat
  deriving DecidableEq, Repr

/-- `MemFile::read` from `memfile.rs`: at or past the end return `Ok(0)`
(EOF-as-empty-read); otherwise copy `min (remaining, buf.len())` bytes from
the current offset and advance the offset by the count.  The caller's buffer
is represented by its length; the returned list is the bytes stored into it. -/
def MemFile.read (m : MemFile) (bufLen : Nat) : Except Errno (List Nat × MemFile) :=
  if m.data.length ≤ m.offset then .ok ([], m)
  else
    let remaining := m.data.drop m.offset
    let count := min remaining.length bufLen
    .ok (remaining.take count, { data := m.data, offset := m.offset + count })

/-- `MemFile::write` from `memfile.rs`: if `offset + buf.len()` exceeds the
current size, resize (zero-filling) to `offset + buf.len()`; then overwrite
the range `[offset, offset + buf.len())` and advance the offset. -/
def MemFile.write (m : MemFile) (buf : List Nat) : Except Errno (Nat × MemFile) :=
  let grown :=
    if m.data.length < m.offset + buf.length then
      m.data ++ List.replicate (m.offset + buf.length - m.data.length) 0
    else m.data
  let newData := grown.take m.offset ++ buf ++ grown.drop (m.offset + buf.length)
  .ok (buf.length, { data := newData, offset := m.offset + buf.length })

/-- `MemFile::close` from `memfile.rs`: a no-op success. -/
def MemFile.close (_m : MemFile) : Except Errno Unit := .ok ()

/-! ## Capability objects stored in the FD table

`filelike.rs` declares the `FileLike` trait with failing defaults; the
implementers present in the sources are `Stdout` (`stubs.rs`, write-only
console sink) and `VfsFileLike` (`adapter.rs`, delegating to a shared VFS
backend, of which `MemFile` is the only concrete `FileOps` implementation). -/

inductive FileLike where
  | stdout
  | vfsFile (m : MemFile)
  deriving DecidableEq, Repr

/-- `FileLike::read`.  `Stdout` does not override `read`, so the trait
default `Err(EBADF)` applies; `VfsFileLike` delegates to the backend. -/
def FileLike.read : FileLike → Nat → Except Errno (List Nat × FileLike)
  | .stdout, _ => .error .EBADF
  | .vfsFile m, bufLen =>
    match MemFile.read m bufLen with
    | .ok (bs, m') => .ok (bs, .vfsFile m')
    | .error e => .error e

/-- `FileLike::write`.  `Stdout::write` logs the buffer and returns
`Ok(buf.len())`; `VfsFileLike` delegates to the backend. -/
def FileLike.write : FileLike → List Nat → Except Errno (Nat × FileLike)
  | .stdout, buf => .ok (buf.length, .stdout)
  | .vfsFile m, buf =>
    match MemFile.write m buf with
    | .ok (n, m') => .ok (n, .vfsFile m')
    | .error e => .error e

/-- `FileLike::close`.  `Stdout` keeps the trait default `Ok(())`;
`VfsFileLike` delegates to the backend. -/
def FileLike.close : FileLike → Except Errno Unit
  | .stdout => .ok ()
  | .vfsFile m => MemFile.close m

/-! ## FD-table primitives

The FD table is a `BTreeMap<u64, _>`, modelled as an association list with
unique keys.  `getT`, `insertT`, `removeT` and `containsT` mirror the map
operations used by the sources. -/

/-- Map lookup: the value bound to key `fd`, if present. -/
def getT (fd : Nat) : List (Nat × α) → Option α
  | [] => none
  | (k, v) :: rest => if k = fd then some v else getT fd rest

/-- Map insert: replace the binding of `fd` if present, else add it. -/
def insertT (fd : Nat) (v : α) : List (Nat × α) → List (Nat × α)
  | [] => [(fd, v)]
  | (k, w) :: rest => if k = fd then (fd, v) :: rest else (k, w) :: insertT fd v rest

/-- Map removal of the binding of `fd` (keys are unique). -/
def removeT (fd : Nat) : List (Nat × α) → List (Nat × α)
  | [] => []
  | (k, w) :: rest => if k = fd then rest else (k, w) :: removeT fd rest

/-- `contains_key`. -/
def containsT (fd : Nat) (t : List (Nat × α)) : Bool := (getT fd t).isSome

/-- Maximum file descriptor number (`fd.rs` and `open.rs`): usable range is
`[3, MAX_FD]`. -/
def MAX_FD : Nat := 64

/-- An entry of the `fd.rs` FD table: a capability object plus metadata. -/
structure FdEntry where
  file : FileLike
  flags : Nat
  offset : Nat
  deriving DecidableEq, Repr

/-- The ascending scan shared by `fd_alloc` (`fd.rs`) and the inline loop in
`sys_open` (`open.rs`): starting at `fd`, return the first index `≤ MAX_FD`
not present in the table.  `fuel` bounds the recursion; callers pass
`MAX_FD + 1`, enough to cover the whole scan. -/
def firstFreeFd (t : List (Nat × α)) : Nat → Nat → Option Nat
  | _, 0 => none
  | fd, fuel + 1 =>
    if fd ≤ MAX_FD then
      if containsT fd t then firstFreeFd t (fd + 1) fuel else some fd
    else none

/-- `fd_alloc` from `fd.rs`: allocate the lowest available FD `≥ 3`, insert
the entry there; `EMFILE` once the scan passes `MAX_FD`. -/
def fd_alloc (entry : α) (t : List (Nat × α)) : Except Errno (Nat × List (Nat × α)) :=
  match firstFreeFd t 3 (MAX_FD + 1) with
  | some fd => .ok (fd, insertT fd entry t)
  | none => .error .EMFILE

/-- `fd_close` from `fd.rs`: `EBADF` for `fd < 3` or an absent entry;
otherwise remove the entry and invoke the backend's `close`. -/
def fd_close (fd : Nat) (t : List (Nat × FdEntry)) :
    Except Errno Unit × List (Nat × FdEntry) :=
  if fd < 3 then (.error .EBADF, t)
  else
    match getT fd t with
    | some entry => (FileLike.close entry.file, removeT fd t)
    | none => (.error .EBADF, t)

/-! ## Kernel state -/

/-- The machine state visible to the syscall layer: the global FD table
(`None` before `init_fd_table_with_std` runs), the user-memory byte oracle,
and the external heap allocator oracle. -/
structure Kernel where
  fdTable : Option (List (Nat × FileLike))
  umem : Nat → Nat
  allocFn : Nat → Nat

/-- `init_fd_table_with_std` from `fd.rs`: if already initialized do
nothing; otherwise create the table with `Stdout` installed on FD 1. -/
def init_fd_table_with_std (k : Kernel) : Kernel :=
  match k.fdTable with
  | some _ => k
  | none => { k with fdTable := some [(1, .stdout)] }

/-! ## User-pointer copies (`stubs.rs` and the local helper in `write.rs`) -/

/-- Scan for the first NUL within `fuel` bytes starting at `ptr`;
`copy_cstr_from_user` fails if the scratch buffer is exhausted first. -/
def findNul (umem : Nat → Nat) (ptr : Nat) : Nat → Nat → Option Nat
  | _, 0 => none
  | i, fuel + 1 => if umem (ptr + i) = 0 then some i else findNul umem ptr (i + 1) fuel

/-- UTF-8 validity of a byte sequence, as checked by `core::str::from_utf8`
inside `copy_cstr_from_user`. -/
def validUtf8 : List Nat → Bool
  | [] => true
  | b :: rest =>
    if b < 0x80 then validUtf8 rest
    else if b < 0xC2 then false
    else if b < 0xE0 then
      match rest with
      | b1 :: r => decide (0x80 ≤ b1 ∧ b1 ≤ 0xBF) && validUtf8 r
      | [] => false
    else if b < 0xF0 then
      match rest with
      | b1 :: b2 :: r =>
        let lo1 := if b = 0xE0 then 0xA0 else 0x80
        let hi1 := if b = 0xED then 0x9F else 0xBF
        decide (lo1 ≤ b1 ∧ b1 ≤ hi1 ∧ 0x80 ≤ b2 ∧ b2 ≤ 0xBF) && validUtf8 r
      | _ => false
    else if b < 0xF5 then
      match rest with
      | b1 :: b2 :: b3 :: r =>
        let lo1 := if b = 0xF0 then 0x90 else 0x80
        let hi1 := if b = 0xF4 then 0x8F else 0xBF
        decide (lo1 ≤ b1 ∧ b1 ≤ hi1 ∧ 0x80 ≤ b2 ∧ b2 ≤ 0xBF ∧ 0x80 ≤ b3 ∧ b3 ≤ 0xBF)
          && validUtf8 r
      | _ => false
    else false

/-- `copy_cstr_from_user` from `stubs.rs`: reject a non-user pointer; read
byte-by-byte until a NUL or until the `scratchLen`-byte buffer is exhausted
(failure, no truncation); then validate UTF-8.  Returns the decoded bytes. -/
def copy_cstr_from_user (umem : Nat → Nat) (ptr scratchLen : Nat) : Option (List Nat) :=
  if is_user_ptr ptr then
    match findNul umem ptr 0 scratchLen with
    | some n =>
      let bs := (List.range n).map fun j => umem (ptr + j)
      if validUtf8 bs then some bs else none
    | none => none
  else none

/-- The `copy_from_user` helper local to `write.rs`: zero length yields an
empty slice; reject null; reject pointers below `HIGHER_HALF_BASE`
(`0x8000000000`) and overflowing ranges. -/
def write_copy_from_user (umem : Nat → Nat) (ptr len : Nat) : Option (List Nat) :=
  if len = 0 then some []
  else if ptr = 0 then none
  else if ptr < 0x8000000000 ∨ U64_MAX < ptr + len then none
  else some ((List.range len).map fun i => umem (ptr + i))

/-! ## Syscall handlers -/

/-- `sys_open` from `open.rs`: `ENOENT` on a null path pointer; `EFAULT` if
the C-string copy fails; `EINVAL` on an empty path or the sentinel flags
value `0xFFFFFFFF`; then scan `[3, MAX_FD]` for the lowest free descriptor
(`EMFILE` if none) and insert a fresh `Stdout` object there.  The decoded
path is only logged; it is never consulted for routing.  Accessing an
uninitialized FD table panics (`expect`), modelled by `none`. -/
def sys_open (path_ptr flags _mode : Nat) (k : Kernel) : Option (Nat × Kernel) :=
  if path_ptr = 0 then some (errE .ENOENT, k)
  else
    match copy_cstr_from_user k.umem path_ptr 256 with
    | none => some (errE .EFAULT, k)
    | some path =>
      if path = [] then some (errE .EINVAL, k)
      else if flags = 0xFFFFFFFF then some (errE .EINVAL, k)
      else
        match k.fdTable with
        | none => none
        | some table =>
          match firstFreeFd table 3 (MAX_FD + 1) with
          | none => some (errE .EMFILE, k)
          | some fd =>
            some (fd, { k with fdTable := some (insertT fd .stdout table) })

/-- `sys_read` from `read.rs`: `len == 0` short-circuits to `0` before any
check; then `EFAULT` for a non-user buffer pointer; `EBADF` for an unknown
fd; otherwise delegate to the object's `read` with a scratch buffer of
`min len 256` bytes and return the count (an `Err` from the backend is
encoded with `err`).  `current_process_fd_table` panics on an uninitialized
table (`none`). -/
def sys_read (fd buf_ptr len : Nat) (k : Kernel) : Option (Nat × Kernel) :=
  if len = 0 then some (0, k)
  else if ¬ is_user_ptr buf_ptr then some (errE .EFAULT, k)
  else
    match k.fdTable with
    | none => none
    | some table =>
      match getT fd table with
      | none => some (errE .EBADF, k)
      | some obj =>
        match FileLike.read obj (min len 256) with
        | .ok (bs, obj') =>
          some (bs.length, { k with fdTable := some (insertT fd obj' table) })
        | .error e => some (errE e, k)

/-- `sys_write` from `write.rs`: `len == 0` short-circuits to `0`; `EINVAL`
for `len > MAX_WRITE` (4096); `EFAULT` when `buf_ptr + len` overflows
`u64`; then the FD table is consulted (panic when uninitialized, modelled
`none`); `EBADF` for fd 0 (stdin) or an unknown fd; the buffer is copied by
the local `copy_from_user`, which accepts only higher-half pointers
(`EFAULT` otherwise); finally the object's `write` runs and its count is
returned (an `Err` from the backend is encoded with `err`). -/
def sys_write (fd buf_ptr len : Nat) (k : Kernel) : Option (Nat × Kernel) :=
  if len = 0 then some (0, k)
  else if 4096 < len then some (errE .EINVAL, k)
  else if U64_MAX < buf_ptr + len then some (errE .EFAULT, k)
  else
    match k.fdTable with
    | none => none
    | some table =>
      if fd = 0 then some (errE .EBADF, k)
      else
        match getT fd table with
        | none => some (errE .EBADF, k)
        | some file =>
          match write_copy_from_user k.umem buf_ptr len with
          | none => some (errE .EFAULT, k)
          | some bytes =>
            match FileLike.write file bytes with
            | .ok (n, file') =>
              some (n, { k with fdTable := some (insertT fd file' table) })
            | .error e => some (errE e, k)

/-- `sys_close` from `close.rs`: `EBADF` for `fd < 3` (reserved) or an
absent entry; otherwise remove the entry and return `0`.
`current_process_fd_table` panics on an uninitialized table (`none`). -/
def sys_close (fd : Nat) (k : Kernel) : Option (Nat × Kernel) :=
  match k.fdTable with
  | none => none
  | some table =>
    if fd < 3 then some (errE .EBADF, k)
    else if containsT fd table then
      some (0, { k with fdTable := some (removeT fd table) })
    else some (errE .EBADF, k)

/-- `sys_exit` from `exit.rs`: log the code, clear the FD table wholesale
(the map stays initialized but empty), return `0`.  The call to
`current_process_fd_table` panics on an uninitialized table (`none`). -/
def sys_exit (_code : Nat) (k : Kernel) : Option (Nat × Kernel) :=
  match k.fdTable with
  | none => none
  | some _ => some (0, { k with fdTable := some [] })

/-- `sys_alloc` plus its trampoline from `alloc.rs`: `EINVAL` for a zero
size or a size rejected by `Layout::from_size_align(size, 8)` (that is,
above `2 ^ 63 - 8`); `ENOMEM` when the external allocator returns null;
otherwise the pointer.  The allocator itself is an external collaborator,
modelled by the oracle `Kernel.allocFn`. -/
def sys_alloc_trampoline (size _a1 _a2 : Nat) (k : Kernel) : Option (Nat × Kernel) :=
  if size = 0 then some (errE .EINVAL, k)
  else if 2 ^ 63 - 8 < size then some (errE .EINVAL, k)
  else if k.allocFn size = 0 then some (errE .ENOMEM, k)
  else some (k.allocFn size, k)

/-- `sys_free` plus its trampoline from `free.rs`: `EINVAL` for a null
pointer, zero size, or a size rejected by `Layout::from_size_align`;
otherwise success (`0`).  The external `dealloc` has no modelled effect. -/
def sys_free_trampoline (ptr size _a2 : Nat) (k : Kernel) : Option (Nat × Kernel) :=
  if ptr = 0 ∨ size = 0 then some (errE .EINVAL, k)
  else if 2 ^ 63 - 8 < size then some (errE .EINVAL, k)
  else some (0, k)

/-! ## Syscall table and dispatcher (`table.rs`, `dispatcher.rs`) -/

/-- The uniform calling convention of table entries (`SyscallFn` in
`stubs.rs`), lifted over the kernel state; `none` models a panic. -/
def SyscallFn : Type := Nat → Nat → Nat → Kernel → Option (Nat × Kernel)

/-- Trampoline wrapping the 1-argument `sys_exit` (`table.rs`). -/
def sys_exit_trampoline : SyscallFn := fun code _a1 _a2 k => sys_exit code k

/-- Trampoline wrapping the 1-argument `sys_close` (`table.rs`). -/
def sys_close_trampoline : SyscallFn := fun fd _a1 _a2 k => sys_close fd k

/-- Size of the fixed syscall table (`table.rs`). -/
def SYSCALL_TABLE_SIZE : Nat := 512

/-- The populated slots of the syscall table built by `init_table` in
`table.rs`: write=1, exit=2, open=3, read=4, alloc=5, free=6, close=7;
every other slot holds `None`. -/
def SYSCALL_TABLE (n : Nat) : Option SyscallFn :=
  if n = 1 then some fun a b c k => sys_write a b c k
  else if n = 2 then some sys_exit_trampoline
  else if n = 3 then some fun a b c k => sys_open a b c k
  else if n = 4 then some fun a b c k => sys_read a b c k
  else if n = 5 then some sys_alloc_trampoline
  else if n = 6 then some sys_free_trampoline
  else if n = 7 then some sys_close_trampoline
  else none

/-- `lookup` from `table.rs`: bounds-checked read of the fixed array. -/
def lookup (num : Nat) : Option SyscallFn :=
  if num < SYSCALL_TABLE_SIZE then SYSCALL_TABLE num else none

/-- `dispatch` from `dispatcher.rs`: `encode(ENOSYS)` when `lookup` misses,
otherwise the handler's raw result unchanged. -/
def dispatch (num a0 a1 a2 : Nat) (k : Kernel) : Option (Nat × Kernel) :=
  match lookup num with
  | some f => f a0 a1 a2 k
  | none => some (errE .ENOSYS, k)

/-! ## Virtual filesystem tree (`vfs/node.rs`, `vfs/mount.rs`)

A `File` node stores an `Arc<Mutex<Box<dyn FileOps>>>` shared handle; the
handle is modelled by a value of the backend type `β`.  A `Directory`'s
`BTreeMap<String, VfsNode>` of children is an association list with unique
names. -/

inductive VfsNode (β : Type) where
  | file (h : β)
  | dir (children : List (String × VfsNode β))
  | symlink (target : String)

/-- Directory-children lookup (`BTreeMap::get`). -/
def childLookup (name : String) : List (String × VfsNode β) → Option (VfsNode β)
  | [] => none
  | (n, v) :: rest => if n = name then some v else childLookup name rest

/-- Directory-children insert (`BTreeMap::insert` / `entry`): replace the
binding of `name` if present, else add it. -/
def childInsert (name : String) (v : VfsNode β) :
    List (String × VfsNode β) → List (String × VfsNode β)
  | [] => [(name, v)]
  | (n, w) :: rest =>
    if n = name then (name, v) :: rest else (n, w) :: childInsert name v rest

/-- A mount point (`vfs/mount.rs`): a path prefix and the tree mounted
there.  The design supports exactly one mount, at `"/"`. -/
structure MountPoint (β : Type) where
  path : String
  root : VfsNode β

/-- `init_mount_table` from `mount.rs`: if the table is nonempty do
nothing, otherwise push a single empty root directory mounted at `"/"`. -/
def init_mount_table (m : List (MountPoint β)) : List (MountPoint β) :=
  match m with
  | _ :: _ => m
  | [] => [⟨"/", .dir []⟩]

/-- The root-mount search `iter().find(|m| m.path == "/")` shared by
`resolve.rs` and `ops.rs`. -/
def findRoot : List (MountPoint β) → Option (VfsNode β)
  | [] => none
  | mp :: rest => if mp.path = "/" then some mp.root else findRoot rest

/-- Write an updated root tree back into the first `"/"` mount (the effect
of mutating through `iter_mut().find(...)`). -/
def updateRoot (newRoot : VfsNode β) : List (MountPoint β) → List (MountPoint β)
  | [] => []
  | mp :: rest =>
    if mp.path = "/" then { mp with root := newRoot } :: rest
    else mp :: updateRoot newRoot rest

/-! ## Path normalization and splitting (duplicated in `resolve.rs` and
`ops.rs`) -/

/-- `normalize_path`: ensure a single leading slash
(`"/" + path.trim_start_matches('/')`). -/
def normalize_path (p : String) : String :=
  "/" ++ String.mk (p.toList.dropWhile fun c => c = '/')

/-- `trim_matches('/')`: strip leading and trailing slashes. -/
def trimSlashes (l : List Char) : List Char :=
  (((l.dropWhile fun c => c = '/').reverse.dropWhile fun c => c = '/')).reverse

/-- `split('/')`: cut a character list at every slash (empty pieces kept,
to be filtered by the caller as in the source). -/
def splitSlashes : List Char → List (List Char)
  | [] => [[]]
  | c :: rest =>
    match splitSlashes rest with
    | [] => [[]]
    | cur :: done => if c = '/' then [] :: cur :: done else (c :: cur) :: done

/-- `split_path`: `trim_matches('/')`, split on `'/'`, drop empty
components. -/
def split_path (p : String) : List String :=
  ((splitSlashes (trimSlashes p.toList)).filter fun s => s ≠ []).map String.mk

/-! ## Path resolution (`vfs/resolve.rs`) -/

/-- The component walk inside `resolve_path`: at each step a `Directory`
child lookup miss is `ENOENT` and descending into a non-directory is
`ENOSYS`; when the loop ends the function returns `ENOSYS` because the
source cannot yet turn a `VfsNode` into a `FileOps` object. -/
def walkNode (node : VfsNode β) : List String → Except Errno β
  | [] => .error .ENOSYS
  | c :: rest =>
    match node with
    | .dir children =>
      match childLookup c children with
      | some child => walkNode child rest
      | none => .error .ENOENT
    | _ => .error .ENOSYS

/-- `resolve_path` from `resolve.rs`: normalize, find the `"/"` mount
(`ENOENT` if absent), special-case `"/"` itself (`ENOSYS`), then walk the
components.  No code path produces a `FileOps` handle. -/
def resolve_path (m : List (MountPoint β)) (path : String) : Except Errno β :=
  match findRoot m with
  | none => .error .ENOENT
  | some root =>
    if normalize_path path = "/" then .error .ENOSYS
    else walkNode root (split_path (normalize_path path))

/-! ## Tree mutation (`vfs/ops.rs`) -/

/-- The creating walk of `vfs_mkdir`: every component is entered with
`entry(..).or_insert(Directory::new())`; a `File` on the way is `ENOTDIR`
and a `Symlink` is `ENOSYS`.  The partially created directories persist
even when an error is returned, so the updated node is always produced. -/
def mkdirAt (node : VfsNode β) : List String → Except Errno Unit × VfsNode β
  | [] => (.ok (), node)
  | c :: rest =>
    match node with
    | .dir children =>
      ((mkdirAt ((childLookup c children).getD (.dir [])) rest).1,
       .dir (childInsert c (mkdirAt ((childLookup c children).getD (.dir [])) rest).2 children))
    | .file h => (.error .ENOTDIR, .file h)
    | .symlink t => (.error .ENOSYS, .symlink t)

/-- `vfs_mkdir` from `ops.rs`: normalize (`"/"` succeeds immediately), find
the root mount (`ENOENT` if absent), then run the creating walk over all
components. -/
def vfs_mkdir (path : String) (m : List (MountPoint β)) :
    Except Errno Unit × List (MountPoint β) :=
  if normalize_path path = "/" then (.ok (), m)
  else
    match findRoot m with
    | none => (.error .ENOENT, m)
    | some root =>
      ((mkdirAt root (split_path (normalize_path path))).1,
       updateRoot (mkdirAt root (split_path (normalize_path path))).2 m)

/-- The creating walk of `vfs_create_file` over the non-terminal
components, followed by the insertion of the `File` leaf `fname` wrapping
the shared handle.  A `File` met on the way (or sitting where the final
directory should be) is `ENOTDIR`; a `Symlink` is `ENOSYS`. -/
def createAt (fname : String) (file : β) (node : VfsNode β) :
    List String → Except Errno Unit × VfsNode β
  | [] =>
    match node with
    | .dir children => (.ok (), .dir (childInsert fname (.file file) children))
    | .file h => (.error .ENOTDIR, .file h)
    | .symlink t => (.error .ENOSYS, .symlink t)
  | c :: rest =>
    match node with
    | .dir children =>
      ((createAt fname file ((childLookup c children).getD (.dir [])) rest).1,
       .dir (childInsert c
         (createAt fname file ((childLookup c children).getD (.dir [])) rest).2 children))
    | .file h => (.error .ENOTDIR, .file h)
    | .symlink t => (.error .ENOSYS, .symlink t)

/-- `vfs_create_file` from `ops.rs`: normalize; the bare root path `"/"` is
rejected with `EISDIR`; `pop()` the filename component (`EINVAL` when there
is none); find the root mount (`ENOENT` if absent); walk the remaining
components creating directories; insert the leaf as a `File` wrapping the
shared handle. -/
def vfs_create_file (path : String) (file : β) (m : List (MountPoint β)) :
    Except Errno Unit × List (MountPoint β) :=
  if normalize_path path = "/" then (.error .EISDIR, m)
  else
    match (split_path (normalize_path path)).getLast? with
    | none => (.error .EINVAL, m)
    | some fname =>
      match findRoot m with
      | none => (.error .ENOENT, m)
      | some root =>
        ((createAt fname file root (split_path (normalize_path path)).dropLast).1,
         updateRoot
           (createAt fname file root (split_path (normalize_path path)).dropLast).2 m)

/-- Pure lookup of the node at a component path (a specification helper for
stating theorems; it is not part of the source). -/
def findNode (node : VfsNode β) : List String → Option (VfsNode β)
  | [] => some node
  | c :: rest =>
    match node with
    | .dir children =>
      match childLookup c children with
      | some child => findNode child rest
      | none => none
    | _ => none

/-- The byte content of `"bulldog\n"`, the pre-seeded hostname file. -/
def hostnameBytes : List Nat := [98, 117, 108, 108, 100, 111, 103, 10]

/-- `vfs_init` from `vfs/init.rs`: initialize the mount table, create
`/etc`, `/etc/init`, `/usr/bin`, `/var/log`, then seed `/etc/hostname`
with a `MemFile` holding `"bulldog\n"` and `/var/log/test_write.txt` with
an empty `MemFile` (results of the individual steps are discarded with
`let _ =`). -/
def vfs_init : List (MountPoint MemFile) :=
  let m := init_mount_table ([] : List (MountPoint MemFile))
  let m := (vfs_mkdir "/etc" m).2
  let m := (vfs_mkdir "/etc/init" m).2
  let m := (vfs_mkdir "/usr/bin" m).2
  let m := (vfs_mkdir "/var/log" m).2
  let m := (vfs_create_file "/etc/hostname" ⟨hostnameBytes, 0⟩ m).2
  let m := (vfs_create_file "/var/log/test_write.txt" ⟨[], 0⟩ m).2
  m

/-! ## Concrete fixtures used by witnesses and counterexamples -/

/-- Byte content of a string (ASCII paths only are used below). -/
def strBytes (s : String) : List Nat := s.toList.map Char.toNat

/-- A user-memory oracle holding `bytes` starting at address 4096 and zero
elsewhere. -/
def umemOf (bytes : List Nat) (a : Nat) : Nat :=
  if 4096 ≤ a then bytes.getD (a - 4096) 0 else 0

/-- A kernel state whose FD table is initialized with `Stdout` on FD 1 (the
result of `init_fd_table_with_std`) and whose user memory holds the
NUL-terminated path `"/vfs/etc/hostname"` at address 4096. -/
def kInit : Kernel :=
  ⟨some [(1, .stdout)], umemOf (strBytes "/vfs/etc/hostname" ++ [0]), fun _ => 0⟩

/-- A kernel state whose FD table has not been initialized. -/
def kNone : Kernel :=
  ⟨none, umemOf (strBytes "/vfs/etc/hostname" ++ [0]), fun _ => 0⟩

/-- A VFS tree with a single file child `"f"`. -/
def T0 : VfsNode Nat := .dir [("f", .file 7)]

/-- A VFS tree with a single empty directory child `"d"`. -/
def T1 : VfsNode Nat := .dir [("d", .dir [])]

/-- A VFS tree with a single symlink child `"s"`. -/
def T2 : VfsNode Nat := .dir [("s", .symlink "/f")]

/-- A sample FD-table entry. -/
def e0 : FdEntry := ⟨.stdout, 0, 0⟩

/-- An FD table with descriptors 3, 4, 5, 6 open. -/
def t3456 : List (Nat × FdEntry) := [(3, e0), (4, e0), (5, e0), (6, e0)]

/-- An FD table with descriptors 3, 4, 6 open (5 closed). -/
def t346 : List (Nat × FdEntry) := [(3, e0), (4, e0), (6, e0)]

/-! ## Claim C5 -/

/-- C5: for every FD-table state (valid fds included), every buffer pointer
and in particular without the pointer being validated, dereferenced or the
table being consulted, `sys_read(fd, ptr, 0)` and `sys_write(fd, ptr, 0)`
return `0` and leave the state unchanged: the zero-length short-circuit is
the first check in both handlers. -/
theorem c5_zero_length_ops_free :
    ∀ (k : Kernel) (fd ptr : Nat),
      sys_read fd ptr 0 k = some (0, k) ∧ sys_write fd ptr 0 k = some (0, k) :=
  fun _ _ _ => ⟨rfl, rfl⟩

/-! ## Claim C4 -/

/-- C4 counterexample: the claim quantifies over every pointer and length
argument and over every FD-table state, but `sys_write(0, ptr, 0)` returns
`0` (the zero-length short-circuit runs before the fd-0 check), and on an
uninitialized FD table `sys_close(2)` panics inside
`current_process_fd_table` (modelled `none`) instead of returning `EBADF`. -/
theorem c4_counterexample :
    sys_write 0 4096 0 kInit = some (0, kInit)
    ∧ (0 : Nat) ≠ errE .EBADF
    ∧ sys_close 2 kNone = none :=
  ⟨rfl, by decide, rfl⟩

/-- C4 (amended): for every initialized FD-table state, `sys_write(0, ptr,
len)` fails with `EBADF` for every pointer and every length in `[1, 4096]`
whose range does not overflow a `u64`, and `sys_close(fd)` fails with
`EBADF` for every `fd < 3`. -/
theorem c4_reserved_fd_errors :
    ∀ (k : Kernel) (t : List (Nat × FileLike)), k.fdTable = some t →
      (∀ ptr len : Nat, 1 ≤ len → len ≤ 4096 → ptr + len ≤ U64_MAX →
        sys_write 0 ptr len k = some (errE .EBADF, k))
      ∧ (∀ fd : Nat, fd < 3 → sys_close fd k = some (errE .EBADF, k)) := by
  intro k t ht
  constructor
  · intro ptr len h1 h4096 hov
    have e0' : ¬ len = 0 := by omega
    have e1 : ¬ 4096 < len := not_lt.mpr h4096
    have e2 : ¬ U64_MAX < ptr + len := not_lt.mpr hov
    simp only [sys_write, if_neg e0', if_neg e1, if_neg e2, ht]
    rfl
  · intro fd h3
    simp only [sys_close, ht, if_pos h3]

/-- C4 witness: concrete instance of the amended claim. -/
theorem c4_reserved_fd_errors_witness :
    sys_write 0 4096 8 kInit = some (errE .EBADF, kInit)
    ∧ sys_close 2 kInit = some (errE .EBADF, kInit) :=
  ⟨(c4_reserved_fd_errors kInit [(1, .stdout)] rfl).1 4096 8 (by decide) (by decide)
      (by decide),
   (c4_reserved_fd_errors kInit [(1, .stdout)] rfl).2 2 (by decide)⟩

/-! ## Claim C10 -/

/-- C10: `sys_write` only accepts buffer pointers at or above the
higher-half base `0x8000000000`: for every initialized table, every open
descriptor `fd ≥ 1`, every length in `[1, 4096]` and every nonzero pointer
below the base (which includes every address accepted by `is_user_ptr`
below the base), the local `copy_from_user` rejects the buffer and the
handler returns `EFAULT`. -/
theorem c10_write_requires_higher_half :
    ∀ (k : Kernel) (t : List (Nat × FileLike)) (fd ptr len : Nat),
      k.fdTable = some t → 1 ≤ fd → containsT fd t = true →
      1 ≤ len → len ≤ 4096 → 1 ≤ ptr → ptr < 0x8000000000 →
      sys_write fd ptr len k = some (errE .EFAULT, k) := by
  intro k t fd ptr len ht hfd hcont hlen hlen4096 hptr hlow
  have e0' : ¬ len = 0 := by omega
  have e1 : ¬ 4096 < len := not_lt.mpr hlen4096
  have e2 : ¬ U64_MAX < ptr + len := by
    have hb : ptr + len ≤ 0x8000000000 + 4096 := by omega
    have hu : (0x8000000000 + 4096 : Nat) ≤ U64_MAX := by norm_num [U64_MAX]
    exact not_lt.mpr (le_trans hb hu)
  obtain ⟨file, hf⟩ := Option.isSome_iff_exists.mp hcont
  have efd : ¬ fd = 0 := by omega
  have eptr : ¬ ptr = 0 := by omega
  simp only [sys_write, if_neg e0', if_neg e1, if_neg e2, ht, if_neg efd, hf,
    write_copy_from_user, if_neg eptr, if_pos (Or.inl hlow)]

/-- C10 witness: concrete instance at an initialized table with `Stdout`
open on FD 1 and a low (lower-half, `is_user_ptr`-accepted) pointer. -/
theorem c10_write_requires_higher_half_witness :
    sys_write 1 4096 4 kInit = some (errE .EFAULT, kInit)
    ∧ is_user_ptr 4096 = true :=
  ⟨c10_write_requires_higher_half kInit [(1, .stdout)] 1 4096 4 rfl (by decide)
      (by decide) (by decide) (by decide) (by decide) (by decide),
   by decide⟩

/-! ## Claim C9 -/

/-- C9 counterexample: after `sys_exit` clears the initialized table, a
write to FD 1 with length 5000 returns `EINVAL` (the `MAX_WRITE` check runs
before the table lookup), not `EBADF` as the claim requires for every
`len ≥ 1`. -/
theorem c9_counterexample :
    sys_exit 0 kInit = some (0, { kInit with fdTable := some [] })
    ∧ sys_write 1 4096 5000 { kInit with fdTable := some [] } =
        some (errE .EINVAL, { kInit with fdTable := some [] })
    ∧ errE .EINVAL ≠ errE .EBADF :=
  ⟨rfl, rfl, by decide⟩

/-- C9 (amended): on an initialized FD table, `sys_exit(code)` returns `0`
for every code and leaves the table initialized but empty (the reserved
stdout entry at FD 1 included); afterwards every `sys_write(1, ptr, len)`
with `len` in `[1, 4096]` and a non-overflowing range returns `EBADF`,
while a `sys_open` with a decodable nonempty path still succeeds and
allocates starting from FD 3. -/
theorem c9_exit_clears_table :
    ∀ (k : Kernel) (t : List (Nat × FileLike)) (code : Nat), k.fdTable = some t →
      sys_exit code k = some (0, { k with fdTable := some [] })
      ∧ (∀ ptr len : Nat, 1 ≤ len → len ≤ 4096 → ptr + len ≤ U64_MAX →
          sys_write 1 ptr len { k with fdTable := some [] } =
            some (errE .EBADF, { k with fdTable := some [] }))
      ∧ (∀ path_ptr flags : Nat, ∀ bs : List Nat, path_ptr ≠ 0 →
          copy_cstr_from_user k.umem path_ptr 256 = some bs → bs ≠ [] →
          flags ≠ 0xFFFFFFFF →
          sys_open path_ptr flags 0 { k with fdTable := some [] } =
            some (3, { k with fdTable := some [(3, .stdout)] })) := by
  intro k t code ht
  refine ⟨by simp only [sys_exit, ht], ?_, ?_⟩
  · intro ptr len h1 h4096 hov
    have e0' : ¬ len = 0 := by omega
    have e1 : ¬ 4096 < len := not_lt.mpr h4096
    have e2 : ¬ U64_MAX < ptr + len := not_lt.mpr hov
    simp only [sys_write, if_neg e0', if_neg e1, if_neg e2]
    rfl
  · intro path_ptr flags bs hp0 hcp hbs hfl
    simp only [sys_open, if_neg hp0]
    have hcp' : copy_cstr_from_user
        (Kernel.umem { k with fdTable := some [] }) path_ptr 256 = some bs := hcp
    rw [hcp']
    simp only [if_neg hbs, if_neg hfl]
    rfl

/-- C9 witness: concrete instance of the amended claim on `kInit`. -/
theorem c9_exit_clears_table_witness :
    sys_exit 7 kInit = some (0, { kInit with fdTable := some [] })
    ∧ sys_write 1 4096 5 { kInit with fdTable := some [] } =
        some (errE .EBADF, { kInit with fdTable := some [] })
    ∧ sys_open 4096 0 0 { kInit with fdTable := some [] } =
        some (3, { kInit with fdTable := some [(3, .stdout)] }) := by
  obtain ⟨h1, h2, h3⟩ := c9_exit_clears_table kInit [(1, .stdout)] 7 rfl
  exact ⟨h1, h2 4096 5 (by decide) (by decide) (by decide),
    h3 4096 0 (strBytes "/vfs/etc/hostname") (by decide) (by decide) (by decide)
      (by decide)⟩

/-! ## Claim C6 -/

/-- An unpopulated slot of the fixed syscall table holds `None`. -/
theorem SYSCALL_TABLE_unpopulated (n : Nat) (h : ¬ n ∈ [1, 2, 3, 4, 5, 6, 7]) :
    SYSCALL_TABLE n = none := by
  simp only [List.mem_cons, List.not_mem_nil, or_false, not_or] at h
  obtain ⟨h1, h2, h3, h4, h5, h6, h7⟩ := h
  simp [SYSCALL_TABLE, h1, h2, h3, h4, h5, h6, h7]

/-- C6: `dispatch` returns the encoding of `ENOSYS` for every syscall
number whose table slot is out of range (`num ≥ 512`) or unpopulated
(`num ∉ {1,…,7}`) at all argument values, and for every populated number it
returns the corresponding handler's raw result unchanged. -/
theorem c6_dispatch_spec :
    (∀ (num a0 a1 a2 : Nat) (k : Kernel),
        512 ≤ num ∨ ¬ num ∈ [1, 2, 3, 4, 5, 6, 7] →
        dispatch num a0 a1 a2 k = some (errE .ENOSYS, k))
    ∧ (∀ (a0 a1 a2 : Nat) (k : Kernel),
        dispatch 1 a0 a1 a2 k = sys_write a0 a1 a2 k
        ∧ dispatch 2 a0 a1 a2 k = sys_exit a0 k
        ∧ dispatch 3 a0 a1 a2 k = sys_open a0 a1 a2 k
        ∧ dispatch 4 a0 a1 a2 k = sys_read a0 a1 a2 k
        ∧ dispatch 5 a0 a1 a2 k = sys_alloc_trampoline a0 a1 a2 k
        ∧ dispatch 6 a0 a1 a2 k = sys_free_trampoline a0 a1 a2 k
        ∧ dispatch 7 a0 a1 a2 k = sys_close a0 k) := by
  constructor
  · intro num a0 a1 a2 k h
    have hL : lookup num = none := by
      rcases h with h512 | hmem
      · simp [lookup, SYSCALL_TABLE_SIZE, not_lt.mpr h512]
      · unfold lookup
        split
        · exact SYSCALL_TABLE_unpopulated num hmem
        · rfl
    simp [dispatch, hL]
  · intro a0 a1 a2 k
    exact ⟨rfl, rfl, rfl, rfl, rfl, rfl, rfl⟩

/-- C6 witness: the concrete unknown syscall `dispatch(9999, 0, 0, 0)`
returns `encode(ENOSYS)`. -/
theorem c6_dispatch_spec_witness :
    dispatch 9999 0 0 0 kInit = some (errE .ENOSYS, kInit) :=
  c6_dispatch_spec.1 9999 0 0 0 kInit (Or.inl (by decide))

/-! ## Claim C2 -/

/-- A successful ascending scan yields a free index that is the least free
index at or above the scan's start. -/
theorem firstFreeFd_some_spec (t : List (Nat × α)) :
    ∀ fuel fd m, firstFreeFd t fd fuel = some m →
      fd ≤ m ∧ m ≤ MAX_FD ∧ containsT m t = false ∧
        ∀ j, fd ≤ j → j < m → containsT j t = true := by
  intro fuel
  induction fuel with
  | zero => intro fd m h; simp [firstFreeFd] at h
  | succ n ih =>
    intro fd m h
    simp only [firstFreeFd] at h
    by_cases hle : fd ≤ MAX_FD
    · rw [if_pos hle] at h
      by_cases hc : containsT fd t = true
      · rw [if_pos hc] at h
        obtain ⟨h1, h2, h3, h4⟩ := ih (fd + 1) m h
        refine ⟨by omega, h2, h3, fun j hj hjm => ?_⟩
        by_cases hfd : j = fd
        · exact hfd ▸ hc
        · exact h4 j (by omega) hjm
      · rw [if_neg hc] at h
        obtain rfl : fd = m := Option.some.inj h
        exact ⟨le_refl _, hle, by simpa using hc, fun j hj hjm => absurd hjm (by omega)⟩
    · rw [if_neg hle] at h
      cases h

/-- Given enough fuel to pass `MAX_FD`, the scan fails exactly when every
index from its start through `MAX_FD` is occupied. -/
theorem firstFreeFd_none_iff (t : List (Nat × α)) :
    ∀ fuel fd, MAX_FD + 1 ≤ fd + fuel →
      (firstFreeFd t fd fuel = none ↔
        ∀ j, fd ≤ j → j ≤ MAX_FD → containsT j t = true) := by
  intro fuel
  induction fuel with
  | zero =>
    intro fd hf
    simp only [MAX_FD] at hf
    constructor
    · intro _ j hj hjM
      simp only [MAX_FD] at hjM
      omega
    · intro _; rfl
  | succ n ih =>
    intro fd hf
    simp only [firstFreeFd]
    by_cases hle : fd ≤ MAX_FD
    · rw [if_pos hle]
      by_cases hc : containsT fd t = true
      · rw [if_pos hc, ih (fd + 1) (by omega)]
        constructor
        · intro hall j hj hjM
          by_cases hfd : j = fd
          · exact hfd ▸ hc
          · exact hall j (by omega) hjM
        · intro hall j hj hjM
          exact hall j (by omega) hjM
      · rw [if_neg hc]
        constructor
        · intro h; cases h
        · intro hall; exact absurd (hall fd le_rfl hle) hc
    · rw [if_neg hle]
      constructor
      · intro _ j hj hjM
        simp only [MAX_FD] at hle hjM
        omega
      · intro _; rfl

/-- C2: for every FD-table state, `fd_alloc` returns the smallest fd `≥ 3`
not currently a key of the table (so never 0, 1 or 2), inserting the entry
there, and fails with `EMFILE` exactly when every fd in `[3, 64]` is
occupied; in particular, after closing fd 5 while fds 3, 4, 6 are open the
next allocation returns 5. -/
theorem c2_fd_alloc_lowest_free :
    (∀ (α : Type) (t : List (Nat × α)) (e : α) (m : Nat) (t' : List (Nat × α)),
        fd_alloc e t = .ok (m, t') →
        3 ≤ m ∧ m ≤ 64 ∧ containsT m t = false ∧
          (∀ j, 3 ≤ j → j < m → containsT j t = true) ∧ t' = insertT m e t)
    ∧ (∀ (α : Type) (t : List (Nat × α)) (e : α),
        fd_alloc e t = .error .EMFILE ↔ ∀ j, 3 ≤ j → j ≤ 64 → containsT j t = true)
    ∧ (fd_close 5 t3456).1 = .ok ()
    ∧ fd_alloc e0 (fd_close 5 t3456).2 = .ok (5, insertT 5 e0 (removeT 5 t3456)) := by
  refine ⟨?_, ?_, rfl, rfl⟩
  · intro α t e m t' h
    unfold fd_alloc at h
    cases hf : firstFreeFd t 3 (MAX_FD + 1) with
    | none => rw [hf] at h; cases h
    | some fd =>
      rw [hf] at h
      obtain ⟨heq1, heq2⟩ : fd = m ∧ insertT fd e t = t' := by
        have := Except.ok.inj h
        exact ⟨congrArg Prod.fst this, congrArg Prod.snd this⟩
      subst heq1
      obtain ⟨h1, h2, h3, h4⟩ := firstFreeFd_some_spec t (MAX_FD + 1) 3 fd hf
      exact ⟨h1, h2, h3, h4, heq2.symm⟩
  · intro α t e
    unfold fd_alloc
    have hiff := firstFreeFd_none_iff t (MAX_FD + 1) 3 (by simp [MAX_FD])
    cases hf : firstFreeFd t 3 (MAX_FD + 1) with
    | none =>
      simp only [hf] at hiff ⊢
      simpa [MAX_FD] using hiff
    | some fd =>
      simp only [hf] at hiff ⊢
      constructor
      · intro h; cases h
      · intro hall
        exact absurd (hiff.mpr (by simpa [MAX_FD] using hall)) (by simp)

/-- C2 witness: the amended-free general law applied to the concrete table
with fds 3, 4, 6 open: allocation returns 5, the smallest free fd `≥ 3`. -/
theorem c2_fd_alloc_lowest_free_witness :
    3 ≤ 5 ∧ 5 ≤ 64 ∧ containsT 5 t346 = false ∧
      insertT 5 e0 t346 = insertT 5 e0 t346 := by
  obtain ⟨h1, h2, h3, _, h5⟩ :=
    c2_fd_alloc_lowest_free.1 FdEntry t346 e0 5 (insertT 5 e0 t346) rfl
  exact ⟨h1, h2, h3, rfl⟩

/-! ## Claim C7 -/

/-- C7: for the in-memory file backend with offset `o` over `n` stored
bytes, a write of `len` bytes succeeds returning `len`, grows the store to
`max n (o + len)` zero-filling any gap, overwrites `[o, o + len)`, keeps
the bytes outside that range, and advances the offset to `o + len`; a read
into a `len`-byte buffer succeeds copying the bytes `[o, o + min len (n -
o))`, advances the offset by the number copied, and returns 0 bytes (a
success, not an error) whenever `o ≥ n`. -/
theorem c7_memfile_semantics :
    (∀ (m : MemFile) (buf : List Nat), ∃ m' : MemFile,
        MemFile.write m buf = .ok (buf.length, m')
        ∧ m'.offset = m.offset + buf.length
        ∧ m'.data.length = max m.data.length (m.offset + buf.length)
        ∧ (∀ i, i < m.offset → i < m.data.length → m'.data[i]? = m.data[i]?)
        ∧ (∀ i, m.data.length ≤ i → i < m.offset → m'.data[i]? = some 0)
        ∧ (∀ i, i < buf.length → m'.data[m.offset + i]? = buf[i]?)
        ∧ (∀ i, m.offset + buf.length ≤ i → i < m.data.length →
            m'.data[i]? = m.data[i]?))
    ∧ (∀ (m : MemFile) (len : Nat), ∃ (bs : List Nat) (m' : MemFile),
        MemFile.read m len = .ok (bs, m')
        ∧ bs.length = min len (m.data.length - m.offset)
        ∧ (∀ i, i < bs.length → bs[i]? = m.data[m.offset + i]?)
        ∧ m'.data = m.data
        ∧ m'.offset = m.offset + bs.length
        ∧ (m.data.length ≤ m.offset → bs = [])) := by
  constructor
  · intro m buf
    obtain ⟨data, o⟩ := m
    simp only [MemFile.write]
    set grown := if data.length < o + buf.length then
        data ++ List.replicate (o + buf.length - data.length) 0 else data with hgrown
    have hglen : grown.length = max data.length (o + buf.length) := by
      rw [hgrown]
      split
      · simp only [List.length_append, List.length_replicate]
        omega
      · omega
    have hgpt : ∀ i, i < data.length → grown[i]? = data[i]? := by
      intro i hi
      rw [hgrown]
      split
      · rw [List.getElem?_append, if_pos hi]
      · rfl
    have hgzero : ∀ i, data.length ≤ i → i < o + buf.length → grown[i]? = some 0 := by
      intro i h1 h2
      rw [hgrown, if_pos (by omega), List.getElem?_append_right h1,
        List.getElem?_replicate, if_pos (by omega)]
    have htklen : (grown.take o).length = o := by
      simp only [List.length_take, hglen]
      omega
    have hablen : (grown.take o ++ buf).length = o + buf.length := by
      simp only [List.length_append, htklen]
    refine ⟨⟨grown.take o ++ buf ++ grown.drop (o + buf.length), o + buf.length⟩,
      rfl, rfl, ?_, ?_, ?_, ?_, ?_⟩
    · dsimp only
      simp only [List.length_append, List.length_take, List.length_drop, hglen]
      omega
    · intro i hio hin
      dsimp only
      rw [List.getElem?_append, if_pos (by rw [hablen]; omega)]
      rw [List.getElem?_append, if_pos (by rw [htklen]; omega)]
      rw [List.getElem?_take, if_pos hio]
      exact hgpt i hin
    · intro i h1 h2
      dsimp only
      rw [List.getElem?_append, if_pos (by rw [hablen]; omega)]
      rw [List.getElem?_append, if_pos (by rw [htklen]; omega)]
      rw [List.getElem?_take, if_pos h2]
      exact hgzero i h1 (by omega)
    · intro i hi
      dsimp only
      rw [List.getElem?_append, if_pos (by rw [hablen]; omega)]
      rw [List.getElem?_append_right (by rw [htklen]; omega)]
      rw [htklen, show o + i - o = i from by omega]
    · intro i h1 h2
      dsimp only
      rw [List.getElem?_append_right (by rw [hablen]; omega)]
      rw [hablen, List.getElem?_drop]
      rw [show o + buf.length + (i - (o + buf.length)) = i from by omega]
      exact hgpt i h2
  · intro m len
    obtain ⟨data, o⟩ := m
    by_cases heof : data.length ≤ o
    · refine ⟨[], ⟨data, o⟩, ?_, ?_, ?_, rfl, ?_, fun _ => rfl⟩
      · simp only [MemFile.read]
        rw [if_pos heof]
      · dsimp only
        simp only [List.length_nil]
        omega
      · intro i hi
        simp at hi
      · dsimp only
        simp
    · have hdl : (data.drop o).length = data.length - o := by
        simp [List.length_drop]
      refine ⟨(data.drop o).take (min (data.drop o).length len),
        ⟨data, o + min (data.drop o).length len⟩, ?_, ?_, ?_, rfl, ?_, ?_⟩
      · simp only [MemFile.read]
        rw [if_neg heof]
      · dsimp only
        rw [List.length_take, hdl]
        omega
      · intro i hi
        rw [List.length_take, hdl] at hi
        rw [List.getElem?_take, if_pos (by rw [hdl]; omega), List.getElem?_drop]
      · dsimp only
        rw [List.length_take, hdl]
        omega
      · intro h
        exact absurd h heof

/-- C7 witness: a concrete write at offset 1 over a 3-byte store, checking
the returned count, the new offset and an overwritten byte through the
theorem's clauses. -/
theorem c7_memfile_semantics_witness :
    ∃ m' : MemFile, MemFile.write ⟨[1, 2, 3], 1⟩ [9, 9] = .ok (2, m')
      ∧ m'.offset = 3 ∧ m'.data[1]? = some 9 := by
  obtain ⟨m', h1, h2, _, _, _, h6, _⟩ :=
    c7_memfile_semantics.1 ⟨[1, 2, 3], 1⟩ [9, 9]
  exact ⟨m', h1, h2, by simpa using h6 0 (by decide)⟩

/-! ## Claim C3 -/

/-- The component walk of `resolve_path` never produces a handle: every
outcome is `ENOENT` (directory lookup miss) or `ENOSYS` (delegated to the
end-of-walk stub or a non-directory on the way). -/
theorem walkNode_never_ok (node : VfsNode β) (comps : List String) :
    walkNode node comps = .error .ENOENT ∨ walkNode node comps = .error .ENOSYS := by
  induction comps generalizing node with
  | nil => right; rfl
  | cons c rest ih =>
    cases node with
    | file h => right; rfl
    | symlink t => right; rfl
    | dir ch =>
      simp only [walkNode]
      cases hcl : childLookup c ch with
      | none => left; rfl
      | some child => exact ih child

/-- C3 counterexample: resolution in the source never succeeds and never
distinguishes the claimed `ENOTDIR`/`EISDIR` cases.  On a tree with file
`f` and directory `d`: resolving `/f` (a file, which the claim says
succeeds with a handle clone) gives `ENOSYS`; resolving `/f/x`
(non-terminal `File`, claimed `ENOTDIR`) gives `ENOSYS`; resolving `/d`
(a directory, claimed `EISDIR`) gives `ENOSYS`. -/
theorem c3_counterexample :
    resolve_path [(⟨"/", T0⟩ : MountPoint Nat)] "/f" = .error .ENOSYS
    ∧ resolve_path [(⟨"/", T0⟩ : MountPoint Nat)] "/f/x" = .error .ENOSYS
    ∧ resolve_path [(⟨"/", T1⟩ : MountPoint Nat)] "/d" = .error .ENOSYS
    ∧ Except.error (α := Nat) Errno.ENOSYS ≠ .error .ENOTDIR
    ∧ Except.error (α := Nat) Errno.ENOSYS ≠ .error .EISDIR :=
  ⟨rfl, rfl, rfl,
    fun h => Errno.noConfusion (Except.error.inj h),
    fun h => Errno.noConfusion (Except.error.inj h)⟩

/-- C3 (amended): `resolve_path` returns `ENOENT` when the root mount is
absent or a directory lookup misses, and `ENOSYS` in every other case —
for a `Symlink` or `File` met while descending, for the root path, and for
every fully resolved node (`File` and `Directory` alike): no path ever
yields a capability handle.  The concrete conjuncts exhibit each branch. -/
theorem c3_resolve_never_returns_handle :
    (∀ (β : Type) (m : List (MountPoint β)) (p : String),
        resolve_path m p = .error .ENOENT ∨ resolve_path m p = .error .ENOSYS)
    ∧ resolve_path [(⟨"/", T0⟩ : MountPoint Nat)] "/f" = .error .ENOSYS
    ∧ resolve_path [(⟨"/", T0⟩ : MountPoint Nat)] "/f/x" = .error .ENOSYS
    ∧ resolve_path [(⟨"/", T1⟩ : MountPoint Nat)] "/d" = .error .ENOSYS
    ∧ resolve_path [(⟨"/", T2⟩ : MountPoint Nat)] "/s/x" = .error .ENOSYS
    ∧ resolve_path [(⟨"/", T0⟩ : MountPoint Nat)] "/missing" = .error .ENOENT
    ∧ resolve_path [(⟨"/", T0⟩ : MountPoint Nat)] "/" = .error .ENOSYS := by
  refine ⟨?_, rfl, rfl, rfl, rfl, rfl, rfl⟩
  intro β m p
  unfold resolve_path
  cases hr : findRoot m with
  | none => left; rfl
  | some root =>
    dsimp only
    by_cases hn : normalize_path p = "/"
    · rw [if_pos hn]; right; rfl
    · rw [if_neg hn]; exact walkNode_never_ok root _

/-! ## Claim C1 -/

/-- Looking up a key right after inserting it yields the inserted value. -/
theorem getT_insertT_self (fd : Nat) (v : α) (t : List (Nat × α)) :
    getT fd (insertT fd v t) = some v := by
  induction t with
  | nil => simp [insertT, getT]
  | cons p rest ih =>
    obtain ⟨k, w⟩ := p
    by_cases hk : k = fd
    · simp [insertT, hk, getT]
    · simp [insertT, hk, getT, ih]

/-- C1 counterexample: in the initialized state with the NUL-terminated
path `"/vfs/etc/hostname"` in user memory, `sys_open` allocates fd 3 but
binds it to the console sink (`Stdout`), not to a VFS backend handle; the
subsequent `read(3, buf, 16)` returns `encode(EBADF)` (the console sink
keeps the failing trait default), not 8; and the seeded VFS tree (which
holds `"bulldog\n"` at `/etc/hostname`) does not even contain the path
`/vfs/etc/hostname`, whose resolution is `ENOENT`. -/
theorem c1_counterexample :
    sys_open 4096 0 0 kInit =
      some (3, { kInit with fdTable := some [(1, .stdout), (3, .stdout)] })
    ∧ getT 3 [(1, FileLike.stdout), (3, FileLike.stdout)] = some .stdout
    ∧ sys_read 3 8192 16 { kInit with fdTable := some [(1, .stdout), (3, .stdout)] } =
        some (errE .EBADF, { kInit with fdTable := some [(1, .stdout), (3, .stdout)] })
    ∧ errE .EBADF ≠ 8
    ∧ resolve_path vfs_init "/vfs/etc/hostname" = .error .ENOENT :=
  ⟨rfl, rfl, rfl, by decide, rfl⟩

/-- C1 (amended): `sys_open` never consults the VFS.  For every initialized
FD-table state, every decodable nonempty path (whatever namespace it lies
under) and every non-sentinel flags value, the new descriptor is the lowest
free fd `≥ 3` and it is bound to the console sink `Stdout` — never to a
resolved shared backend handle. -/
theorem c1_open_binds_console :
    ∀ (k : Kernel) (t : List (Nat × FileLike)) (path_ptr flags mode fd : Nat)
      (bs : List Nat),
      k.fdTable = some t →
      path_ptr ≠ 0 →
      copy_cstr_from_user k.umem path_ptr 256 = some bs →
      bs ≠ [] →
      flags ≠ 0xFFFFFFFF →
      firstFreeFd t 3 (MAX_FD + 1) = some fd →
      sys_open path_ptr flags mode k =
        some (fd, { k with fdTable := some (insertT fd .stdout t) })
      ∧ getT fd (insertT fd FileLike.stdout t) = some .stdout := by
  intro k t path_ptr flags mode fd bs ht hp0 hcp hbs hfl hfree
  refine ⟨?_, getT_insertT_self fd .stdout t⟩
  simp only [sys_open, if_neg hp0, hcp, if_neg hbs, if_neg hfl, ht, hfree]

/-- C1 witness: the amended claim applied at the concrete initialized
state and the path `"/vfs/etc/hostname"`. -/
theorem c1_open_binds_console_witness :
    sys_open 4096 0 0 kInit =
      some (3, { kInit with fdTable := some (insertT 3 .stdout [(1, .stdout)]) })
    ∧ getT 3 (insertT 3 FileLike.stdout [(1, .stdout)]) = some .stdout :=
  c1_open_binds_console kInit [(1, .stdout)] 4096 0 0 3
    (strBytes "/vfs/etc/hostname") rfl (by decide) (by decide) (by decide)
    (by decide) (by decide)

/-! ## Claim C8 -/

/-- Looking up a directory child right after inserting it yields the
inserted node. -/
theorem childLookup_insert_self (name : String) (v : VfsNode β)
    (l : List (String × VfsNode β)) :
    childLookup name (childInsert name v l) = some v := by
  induction l with
  | nil => simp [childInsert, childLookup]
  | cons p rest ih =>
    obtain ⟨n, w⟩ := p
    by_cases hn : n = name
    · simp [childInsert, hn, childLookup]
    · simp [childInsert, hn, childLookup, ih]

/-- If some non-empty strict prefix of the walked components resolves to a
`File` node, the creating walk of `vfs_create_file` fails with `ENOTDIR`. -/
theorem createAt_ENOTDIR (fname : String) (b : β) :
    ∀ (ps : List String) (node : VfsNode β) (j : Nat) (h : β),
      j < ps.length → findNode node (ps.take (j + 1)) = some (.file h) →
      (createAt fname b node ps).1 = .error .ENOTDIR := by
  intro ps
  induction ps with
  | nil =>
    intro node j h hj hfind
    simp at hj
  | cons c rest ih =>
    intro node j h hj hfind
    rw [List.take_succ_cons] at hfind
    cases node with
    | file h' => simp [findNode] at hfind
    | symlink t => simp [findNode] at hfind
    | dir ch =>
      simp only [findNode] at hfind
      cases hcl : childLookup c ch with
      | none => rw [hcl] at hfind; cases hfind
      | some child =>
        rw [hcl] at hfind
        simp only [createAt, hcl, Option.getD_some]
        cases j with
        | zero =>
          simp only [List.take_zero, findNode] at hfind
          obtain rfl : child = .file h := Option.some.inj hfind
          cases rest with
          | nil => rfl
          | cons r rs => rfl
        | succ j' =>
          refine ih child j' h ?_ hfind
          simp only [List.length_cons] at hj
          omega

/-- When the creating walk succeeds, the leaf `fname` of the resulting tree
is a `File` node wrapping exactly the supplied backend handle. -/
theorem createAt_ok_findNode (fname : String) (b : β) :
    ∀ (ps : List String) (node : VfsNode β),
      (createAt fname b node ps).1 = .ok () →
      findNode (createAt fname b node ps).2 (ps ++ [fname]) = some (.file b) := by
  intro ps
  induction ps with
  | nil =>
    intro node hok
    cases node with
    | dir ch =>
      simp only [createAt, List.nil_append, findNode, childLookup_insert_self]
    | file h => simp [createAt] at hok
    | symlink t => simp [createAt] at hok
  | cons c rest ih =>
    intro node hok
    cases node with
    | dir ch =>
      simp only [createAt] at hok ⊢
      rw [List.cons_append]
      simp only [findNode, childLookup_insert_self]
      exact ih _ hok
    | file h => simp [createAt] at hok
    | symlink t => simp [createAt] at hok

/-- Writing an updated root back into a mount table that had a `"/"` mount
makes that root the one found by the next root-mount search. -/
theorem findRoot_updateRoot (m : List (MountPoint β)) (r0 newRoot : VfsNode β)
    (h : findRoot m = some r0) :
    findRoot (updateRoot newRoot m) = some newRoot := by
  induction m with
  | nil => cases h
  | cons mp rest ih =>
    simp only [findRoot] at h
    by_cases hp : mp.path = "/"
    · simp [updateRoot, findRoot, hp]
    · rw [if_neg hp] at h
      simp only [updateRoot, if_neg hp, findRoot]
      exact ih h

/-- C8 counterexample: for the path `"/"` (no filename component) the code
returns `EISDIR`, not the claimed `EINVAL`. -/
theorem c8_counterexample :
    (vfs_create_file "/" 0 [(⟨"/", T0⟩ : MountPoint Nat)]).1 = .error .EISDIR
    ∧ (vfs_create_file "/" 0 [(⟨"/", T0⟩ : MountPoint Nat)]).1 ≠ .error .EINVAL :=
  ⟨rfl, fun h => Errno.noConfusion (Except.error.inj h)⟩

/-- C8 (amended): `vfs_create_file` returns `EISDIR` (not `EINVAL`) for the
path `"/"`, for every mount table and backend; it returns `ENOTDIR`
whenever a non-terminal component of the path already exists as a `File`;
and on success the leaf component of the updated tree is a `File` node
wrapping exactly the supplied shared handle. -/
theorem c8_create_file_spec :
    (∀ (β : Type) (m : List (MountPoint β)) (b : β),
        (vfs_create_file "/" b m).1 = .error .EISDIR)
    ∧ (∀ (β : Type) (m : List (MountPoint β)) (root : VfsNode β) (b h : β)
          (p : String) (i : Nat),
        findRoot m = some root →
        normalize_path p ≠ "/" →
        i + 1 < (split_path (normalize_path p)).length →
        findNode root ((split_path (normalize_path p)).take (i + 1)) =
          some (.file h) →
        (vfs_create_file p b m).1 = .error .ENOTDIR)
    ∧ (∀ (β : Type) (m : List (MountPoint β)) (root : VfsNode β) (b : β)
          (p : String),
        findRoot m = some root →
        (vfs_create_file p b m).1 = .ok () →
        ∃ root', findRoot (vfs_create_file p b m).2 = some root'
          ∧ findNode root' (split_path (normalize_path p)) = some (.file b)) := by
  refine ⟨fun β m b => rfl, ?_, ?_⟩
  · intro β m root b h p i hroot hnorm hlen hfind
    unfold vfs_create_file
    rw [if_neg hnorm]
    have hcne : split_path (normalize_path p) ≠ [] := by
      intro hnil
      rw [hnil] at hlen
      simp at hlen
    obtain ⟨fname, hlast⟩ :=
      Option.isSome_iff_exists.mp (List.getLast?_isSome.mpr hcne)
    rw [hlast, hroot]
    dsimp only
    refine createAt_ENOTDIR fname b _ root i h ?_ ?_
    · rw [List.length_dropLast]
      omega
    · have htk : (split_path (normalize_path p)).dropLast.take (i + 1) =
          (split_path (normalize_path p)).take (i + 1) := by
        rw [List.dropLast_eq_take, List.take_take]
        congr 1
        omega
      rw [htk]
      exact hfind
  · intro β m root b p hroot hok
    unfold vfs_create_file at hok ⊢
    by_cases hnorm : normalize_path p = "/"
    · rw [if_pos hnorm] at hok
      cases hok
    · rw [if_neg hnorm] at hok ⊢
      cases hlast : (split_path (normalize_path p)).getLast? with
      | none =>
        rw [hlast] at hok
        simp at hok
      | some fname =>
        rw [hlast] at hok
        rw [hroot] at hok ⊢
        dsimp only at hok ⊢
        refine ⟨(createAt fname b root (split_path (normalize_path p)).dropLast).2,
          findRoot_updateRoot m root _ hroot, ?_⟩
        have hfn := createAt_ok_findNode fname b _ root hok
        have hne : split_path (normalize_path p) ≠ [] := by
          intro hnil
          rw [hnil] at hlast
          cases hlast
        have hcat : (split_path (normalize_path p)).dropLast ++ [fname] =
            split_path (normalize_path p) := by
          have h3 : (split_path (normalize_path p)).getLast hne = fname := by
            have h4 := List.getLast?_eq_getLast (split_path (normalize_path p)) hne
            rw [h4] at hlast
            exact Option.some.inj hlast
          rw [← h3]
          exact List.dropLast_append_getLast hne
        rw [hcat] at hfn
        exact hfn

/-- C8 witness: the three clauses of the amended claim at concrete inputs —
the root path on a sample table, the path `/f/g` whose non-terminal
component `f` is a file, and the successful creation of `/a/b`. -/
theorem c8_create_file_spec_witness :
    (vfs_create_file "/" 3 [(⟨"/", T0⟩ : MountPoint Nat)]).1 = .error .EISDIR
    ∧ (vfs_create_file "/f/g" 5 [(⟨"/", T0⟩ : MountPoint Nat)]).1 = .error .ENOTDIR
    ∧ ∃ root', findRoot (vfs_create_file "/a/b" 5 [(⟨"/", T0⟩ : MountPoint Nat)]).2 =
        some root'
      ∧ findNode root' (split_path (normalize_path "/a/b")) = some (.file 5) :=
  ⟨c8_create_file_spec.1 Nat [⟨"/", T0⟩] 3,
   c8_create_file_spec.2.1 Nat [⟨"/", T0⟩] T0 5 7 "/f/g" 0 rfl (by decide)
     (by decide) rfl,
   c8_create_file_spec.2.2 Nat [⟨"/", T0⟩] T0 5 "/a/b" rfl rfl⟩

end Bulldog
